import Mathlib

/-!
# calendar-stats: the result presenter and the statistics engine it calls

A shallow embedding of `src/main.go` (the body of `main` after the inputs are
loaded, `formatUnrecognizedEvent`, `formatDayTotal`) together with the
repository packages `core` and `ordererd`, whose files are not part of the
source tree at hand and are therefore modelled from the specification.

Conventions.
* `time.Duration` and `int64` are integers with explicit wrap-around
  (`wrap64`) at every arithmetic operation of `main.go`.
* A Go `map[K]time.Duration` is a finite association list without repeated
  keys (`GoMap`); reading an absent key yields the zero value.
* Functions of the Go standard library and of `cloud.google.com/go/civil`
  (`time.Parse`, `Time.Sub`, `Duration.String`, `civil.DateOf`, the `%f`
  rendering) are fields of `TimeLib`, so every statement holds for any
  behaviour of those functions.
* Standard output is the list of lines printed; a run-time panic ends the run
  and is recorded next to the lines printed before it.
-/

namespace CalendarStats

/-! ## Machine integers -/

/-- Two's-complement reduction of an integer to the `int64` range. -/
def wrap64 (x : Int) : Int := (x + 2 ^ 63) % 2 ^ 64 - 2 ^ 63

/-- Largest `int64`. -/
def MaxInt64 : Int := 2 ^ 63 - 1

/-- Smallest `int64`. -/
def MinInt64 : Int := -(2 ^ 63)

/-- Membership in the `int64` range. -/
def inInt64 (x : Int) : Prop := MinInt64 ≤ x ∧ x ≤ MaxInt64

instance (x : Int) : Decidable (inInt64 x) := by
  unfold inInt64; exact inferInstance

/-- Go `a + b` on `int64` (and on `time.Duration`). -/
def add64 (a b : Int) : Int := wrap64 (a + b)

/-- Go `a * b` on `int64`. -/
def mul64 (a b : Int) : Int := wrap64 (a * b)

/-- Go `a / b` on `int64`: the quotient truncated toward zero, `none` for the
run-time panic "integer divide by zero". -/
def div64 (a b : Int) : Option Int :=
  if b = 0 then none else some (wrap64 (Int.tdiv a b))

/-! ## Data model -/

/-- The `calendar.EventDateTime` of the Google Calendar API. -/
structure EventDateTime where
  Date : String
  DateTime : String
  TimeZone : String
  deriving DecidableEq, Repr

/-- The fields of `calendar.Event` the program reads; `Start` and `End` are
pointers and may be nil. -/
structure Event where
  Id : String
  Summary : String
  Description : String
  Start : Option EventDateTime
  End : Option EventDateTime
  deriving DecidableEq, Repr

/-- The `calendar.Events` value returned by `io.GetEvents`. -/
structure Events where
  Items : List Event
  deriving DecidableEq, Repr

/-- The `civil.Date` triple. -/
structure CivilDate where
  Year : Int
  Month : Int
  Day : Int
  deriving DecidableEq, Repr

/-- Modelled from the spec: the category rule type of package `core`/`config`
(absent from the source tree): a display name and a predicate over the event's
textual fields. -/
structure Category where
  Name : String
  Matches : Event → Bool

/-- Modelled from the spec: the constant `core.Uncategorized` (absent from the
source tree), the reserved name of the bucket for events matching no rule. -/
def Uncategorized : String := "Uncategorized"

/-- The library functions the program calls, kept abstract. -/
structure TimeLib where
  /-- Instants, `time.Time`. -/
  Time : Type
  /-- Parsing `time.Parse(time.RFC3339, s)`; `none` when the error is not nil. -/
  parseRFC3339 : String → Option Time
  /-- Difference `t.Sub(u)` in nanoseconds. -/
  sub : Time → Time → Int
  /-- Rendering `d.String()` of a `time.Duration`. -/
  durationString : Int → String
  /-- Rendering `fmt.Sprintf("%f", float64(d)/float64(time.Hour))`. -/
  decimalHours : Int → String
  /-- Calendar date `civil.DateOf(t)`. -/
  dateOf : Time → CivilDate

/-! ## Go maps -/

/-- The statement `m[k] += d` on the entries of a map whose values are not
bounded (the spec's accumulated durations). -/
def addEntry {K : Type} [DecidableEq K] (k : K) (d : Int) :
    List (K × Int) → List (K × Int)
  | [] => [(k, d)]
  | (k', v) :: rest =>
    if k' = k then (k', v + d) :: rest else (k', v) :: addEntry k d rest

theorem addEntry_keys {K : Type} [DecidableEq K] (k : K) (d : Int) (l : List (K × Int)) :
    (addEntry k d l).map Prod.fst =
      if k ∈ l.map Prod.fst then l.map Prod.fst else l.map Prod.fst ++ [k] := by
  induction l with
  | nil => simp [addEntry]
  | cons p rest ih =>
    obtain ⟨k', v⟩ := p
    by_cases h : k' = k
    · subst h; simp [addEntry]
    · have h' : ¬ k = k' := fun e => h e.symm
      simp only [addEntry, h, if_false, List.map_cons, ih, List.mem_cons, h', false_or]
      split <;> simp

theorem addEntry_nodup {K : Type} [DecidableEq K] (k : K) (d : Int) (l : List (K × Int))
    (h : (l.map Prod.fst).Nodup) : ((addEntry k d l).map Prod.fst).Nodup := by
  rw [addEntry_keys]
  split
  · exact h
  · rename_i hk
    exact List.Nodup.append h (List.nodup_singleton k) (by simpa using hk)

/-- A Go map from `K` to `time.Duration`: finitely many entries, no key twice. -/
structure GoMap (K : Type) [DecidableEq K] where
  entries : List (K × Int)
  nodup : (entries.map Prod.fst).Nodup

namespace GoMap

variable {K : Type} [DecidableEq K]

/-- The map `make(map[K]time.Duration)`. -/
def empty : GoMap K := ⟨[], List.nodup_nil⟩

/-- The keys, in the (unspecified) order `range` visits them. -/
def keys (m : GoMap K) : List K := m.entries.map Prod.fst

/-- The read `m[k]`: the stored value, or the zero value for an absent key. -/
def get (m : GoMap K) (k : K) : Int :=
  match m.entries.lookup k with
  | some v => v
  | none => 0

/-- The statement `m[k] += d`. -/
def add (m : GoMap K) (k : K) (d : Int) : GoMap K :=
  ⟨addEntry k d m.entries, addEntry_nodup k d m.entries m.nodup⟩

/-- The exact (unbounded) sum of the values of the map. -/
def sumValues (m : GoMap K) : Int := (m.entries.map Prod.snd).sum

end GoMap

/-! ## Package `ordererd` -/

/-- Modelled from the spec: the comparison `ordererd.CivilDates` (absent from
the source tree), the strict chronological less-than on (year, month, day). -/
def CivilDates (a b : CivilDate) : Bool :=
  decide (a.Year < b.Year ∨ (a.Year = b.Year ∧
    (a.Month < b.Month ∨ (a.Month = b.Month ∧ a.Day < b.Day))))

/-- Sorting a list of keys ascending by a strict less-than: `a` may stand
before `b` unless `b` is less than `a`. -/
def sortKeys {K : Type} (less : K → K → Bool) (l : List K) : List K :=
  l.insertionSort (fun a b => less b a = false)

/-- Modelled from the spec: the function `ordererd.KeysOfMap` (absent from
the source tree), "sorted keys of a day-keyed mapping": the keys of the map,
sorted ascending by the given less-than. -/
def KeysOfMap {K : Type} [DecidableEq K] (m : GoMap K) (less : K → K → Bool) : List K :=
  sortKeys less m.keys

/-! ## Package `core` -/

/-- Modelled from the spec: category rule matching of package `core` (absent
from the source tree): the name of the first rule, in declaration order, whose
predicate matches the event, or `Uncategorized` when none does. -/
def getCategory (event : Event) : List Category → String
  | [] => Uncategorized
  | rule :: rest => if rule.Matches event then rule.Name else getCategory event rest

/-- The three structures `core.ComputeTotals` returns. -/
structure Totals where
  dayTotals : GoMap CivilDate
  categoryTotals : GoMap String
  unrecognized : List Event

/-- Modelled from the spec: step 2a/2b of the engine (absent from the source
tree): the start instant and the duration `end − start` of an event that
contributes, `none` for a non-contributing event (start or end absent or
unparseable, or a negative duration). -/
def contribution (L : TimeLib) (event : Event) : Option (L.Time × Int) :=
  match event.Start, event.End with
  | some st, some en =>
    match L.parseRFC3339 st.DateTime, L.parseRFC3339 en.DateTime with
    | some s, some e => if L.sub e s < 0 then none else some (s, L.sub e s)
    | _, _ => none
  | _, _ => none

/-- Modelled from the spec: one iteration of the aggregation pass of
`core.ComputeTotals` (steps 2a to 2d). -/
def computeStep (L : TimeLib) (categories : List Category) (acc : Totals)
    (event : Event) : Totals :=
  match contribution L event with
  | none => acc
  | some (s, d) =>
    let name := getCategory event categories
    { dayTotals := acc.dayTotals.add (L.dateOf s) d
      categoryTotals := acc.categoryTotals.add name d
      unrecognized :=
        if name = Uncategorized then acc.unrecognized ++ [event] else acc.unrecognized }

/-- Modelled from the spec: the function `core.ComputeTotals` (absent from
the source tree): one pass over the events in input order, starting from empty
structures. -/
def ComputeTotals (L : TimeLib) (events : Events) (categories : List Category) : Totals :=
  events.Items.foldl (computeStep L categories) ⟨GoMap.empty, GoMap.empty, []⟩

/-! ## `main.go` -/

/-- A line written to standard output. -/
inductive Line where
  /-- A fixed text printed with `fmt.Println`. -/
  | text (s : String)
  /-- The day line `fmt.Printf("%v: %s\n", day, value)`. -/
  | day (day : CivilDate) (value : String)
  /-- The category line `fmt.Printf("%2d%% %s\n", fraction, catName)`. -/
  | percent (fraction : Int) (catName : String)
  deriving DecidableEq, Repr

/-- A run-time panic. -/
inductive Fault where
  | divideByZero
  deriving DecidableEq, Repr

/-- The outcome of a run: the lines printed and the panic that ended it, if any. -/
structure Run where
  out : List Line
  fault : Option Fault
  deriving DecidableEq, Repr

/-- The verb `%10s`: the text right-aligned in a field of width 10. -/
def padLeft (width : Nat) (s : String) : String :=
  String.mk (List.replicate (width - s.length) ' ') ++ s

/-- The function `formatUnrecognizedEvent` of `main.go`. -/
def formatUnrecognizedEvent (L : TimeLib) (event : Event) : String :=
  match event.Start, event.End with
  | some startField, some endField =>
    match L.parseRFC3339 startField.DateTime, L.parseRFC3339 endField.DateTime with
    | some start, some end_ =>
      startField.DateTime ++ " " ++ padLeft 10 (L.durationString (L.sub end_ start))
        ++ "  " ++ event.Summary
    | _, _ => "?"
  | _, _ => "?"

/-- The function `formatDayTotal` of `main.go`. -/
def formatDayTotal (L : TimeLib) (decimalOutput : Bool) (d : Int) : String :=
  if decimalOutput then L.decimalHours d else L.durationString d

/-- The body of the loop `for _, day := range days`: the running `total` and
the lines printed so far. -/
def dayStep (L : TimeLib) (decimalOutput : Bool) (dayTotals : GoMap CivilDate)
    (st : Int × List Line) (day : CivilDate) : Int × List Line :=
  (add64 st.1 (dayTotals.get day),
   st.2 ++ [Line.day day (formatDayTotal L decimalOutput (dayTotals.get day))])

/-- The name printed for a category: `core.Uncategorized` is shown as
`(uncategorized)`. -/
def displayName (catName : String) : String :=
  if catName = Uncategorized then "(uncategorized)" else catName

/-- The loop `for _, category := range categories` of `main`, continuing from
the lines `out` printed so far. -/
def categoryLoop (categoryTotals : GoMap String) (total : Int) :
    List Category → List Line → Run
  | [], out => ⟨out, none⟩
  | category :: rest, out =>
    let catName := category.Name
    let val := categoryTotals.get catName
    match div64 (mul64 val 100) total with
    | none => ⟨out, some Fault.divideByZero⟩
    | some fraction =>
      categoryLoop categoryTotals total rest (out ++ [Line.percent fraction (displayName catName)])

/-- The `else` branch of `main` after the call of `core.ComputeTotals`
(lines 75 to 102). -/
def present (L : TimeLib) (decimalOutput : Bool) (dayTotals : GoMap CivilDate)
    (categoryTotals : GoMap String) (unrecognized : List Event)
    (categories : List Category) : Run :=
  let days := KeysOfMap dayTotals CivilDates
  let out := if days.length > 0 then [Line.text "Time spent per day:"] else []
  let st := days.foldl (dayStep L decimalOutput dayTotals) (0, out)
  let total := st.1
  let out := st.2
  let out := if categories.length > 0 then out ++ [Line.text "Time spent per category:"] else out
  match categoryLoop categoryTotals total categories out with
  | ⟨out, some f⟩ => ⟨out, some f⟩
  | ⟨out, none⟩ =>
    let out := if unrecognized.length > 0 then out ++ [Line.text "Unrecognized:"] else out
    ⟨out ++ unrecognized.map (fun un => Line.text (formatUnrecognizedEvent L un)), none⟩

/-- The function `main` from line 71 on, given the events and the categories
that were loaded. -/
def main (L : TimeLib) (decimalOutput : Bool) (events : Events)
    (categories : List Category) : Run :=
  if events.Items.length = 0 then
    ⟨[Line.text "No events found."], none⟩
  else
    let t := ComputeTotals L events categories
    present L decimalOutput t.dayTotals t.categoryTotals t.unrecognized categories

/-- The `total` that `main` has accumulated when the day loop ends. -/
def grandTotal (dayTotals : GoMap CivilDate) : Int :=
  (KeysOfMap dayTotals CivilDates).foldl (fun total day => add64 total (dayTotals.get day)) 0

/-- The category lines among the lines printed, in print order. -/
def percentLines : List Line → List (Int × String)
  | [] => []
  | Line.percent fraction catName :: rest => (fraction, catName) :: percentLines rest
  | _ :: rest => percentLines rest

/-! ## Observations on runs and on events -/

/-- The durations of the contributing events of a list, in input order. -/
def contributingDurations (L : TimeLib) (events : List Event) : List Int :=
  events.filterMap (fun e => (contribution L e).map Prod.snd)

/-- The duration `end − start` of an event whose start and end are both
present and parse, whatever its sign. -/
def parsedDuration (L : TimeLib) (event : Event) : Option Int :=
  match event.Start, event.End with
  | some st, some en =>
    match L.parseRFC3339 st.DateTime, L.parseRFC3339 en.DateTime with
    | some s, some e => some (L.sub e s)
    | _, _ => none
  | _, _ => none

/-- The days of the day lines among the lines printed, in print order. -/
def dayKeys : List Line → List CivilDate
  | [] => []
  | Line.day day _ :: rest => day :: dayKeys rest
  | _ :: rest => dayKeys rest

/-! ## Concrete inputs -/

/-- A library instance for concrete runs. Instants are Unix nanoseconds; the
four timestamps listed parse to their RFC 3339 values and every other text is
rejected; the difference of two instants is their exact difference. -/
def sampleLib : TimeLib where
  Time := Int
  parseRFC3339 := fun s =>
    if s = "2024-01-01T09:00:00Z" then some 1704099600000000000
    else if s = "2024-01-01T10:00:00Z" then some 1704103200000000000
    else if s = "2024-01-01T12:00:00Z" then some 1704110400000000000
    else if s = "2024-01-01T13:00:00Z" then some 1704114000000000000
    else none
  sub := fun t u => t - u
  durationString := fun d => toString d ++ "ns"
  decimalHours := fun d => toString d ++ "ns"
  dateOf := fun _ => ⟨2024, 1, 1⟩

/-- An event without timestamps (both `Start` and `End` are nil). -/
def untimedEvent : Event :=
  { Id := "e1", Summary := "Lunch", Description := "", Start := none, End := none }

/-- An event whose end (09:00) lies one hour before its start (10:00). -/
def backwardsEvent : Event :=
  { Id := "e2", Summary := "Standup", Description := "",
    Start := some ⟨"", "2024-01-01T10:00:00Z", ""⟩,
    End := some ⟨"", "2024-01-01T09:00:00Z", ""⟩ }

/-- A one-hour event (09:00 to 10:00) with the summary "Review". -/
def reviewEvent : Event :=
  { Id := "e3", Summary := "Review", Description := "",
    Start := some ⟨"", "2024-01-01T09:00:00Z", ""⟩,
    End := some ⟨"", "2024-01-01T10:00:00Z", ""⟩ }

/-- A two-hour event (10:00 to 12:00) with the summary "Errand". -/
def errandEvent : Event :=
  { Id := "e4", Summary := "Errand", Description := "",
    Start := some ⟨"", "2024-01-01T10:00:00Z", ""⟩,
    End := some ⟨"", "2024-01-01T12:00:00Z", ""⟩ }

/-- The day totals of concrete scenario 3: three hours on one day. -/
def scenario3Days (day : CivilDate) : GoMap CivilDate :=
  ⟨[(day, 10800000000000)], List.nodup_singleton day⟩

/-- The category totals of concrete scenario 3: one hour for "A", two hours
for the uncategorized bucket. -/
def scenario3Categories : GoMap String :=
  ⟨[("A", 3600000000000), (Uncategorized, 7200000000000)], by decide⟩

/-- The rules "A" (matching the summary "Review") and "Uncategorized"
(matching nothing). -/
def scenario3Rules : List Category :=
  [⟨"A", fun e => decide (e.Summary = "Review")⟩, ⟨Uncategorized, fun _ => false⟩]

/-- Three years (2020-01-01 to 2023-01-01, 1096 days) in nanoseconds. -/
def threeYears : Int := 1096 * 86400 * 1000000000

/-- Day totals holding one event of three years. -/
def longDays : GoMap CivilDate := ⟨[(⟨2020, 1, 1⟩, threeYears)], by decide⟩

/-- Category totals holding the same three years under "Sabbatical". -/
def longCategories : GoMap String := ⟨[("Sabbatical", threeYears)], by decide⟩

/-! ## Machine integers: lemmas -/

theorem wrap64_of_inInt64 {x : Int} (h : inInt64 x) : wrap64 x = x := by
  unfold inInt64 MinInt64 MaxInt64 at h
  unfold wrap64
  omega

theorem wrap64_add_wrap64 (a b : Int) : wrap64 (wrap64 a + b) = wrap64 (a + b) := by
  unfold wrap64
  omega

theorem foldl_add64 (f : CivilDate → Int) (l : List CivilDate) (t : Int) :
    l.foldl (fun total day => add64 total (f day)) (wrap64 t) = wrap64 (t + (l.map f).sum) := by
  induction l generalizing t with
  | nil => simp
  | cons d rest ih =>
    simp only [List.foldl_cons, List.map_cons, List.sum_cons]
    rw [add64, wrap64_add_wrap64, ih, add_assoc]

/-! ## Go maps: lemmas -/

theorem lookup_map_keys {K : Type} [DecidableEq K] (l : List (K × Int))
    (h : (l.map Prod.fst).Nodup) :
    (l.map Prod.fst).map (fun k => match l.lookup k with | some v => v | none => 0)
      = l.map Prod.snd := by
  induction l with
  | nil => rfl
  | cons p rest ih =>
    obtain ⟨k, v⟩ := p
    simp only [List.map_cons, List.nodup_cons] at h
    simp only [List.map_cons, List.lookup_cons, beq_self_eq_true, List.cons.injEq, true_and]
    rw [← ih h.2]
    apply List.map_congr_left
    intro k' hk'
    have : (k' == k) = false := by
      simp only [beq_eq_false_iff_ne]
      rintro rfl
      exact h.1 hk'
    simp [this]

theorem GoMap.sum_get_keys {K : Type} [DecidableEq K] (m : GoMap K) :
    (m.keys.map m.get).sum = m.sumValues := by
  unfold GoMap.keys GoMap.sumValues
  have := lookup_map_keys m.entries m.nodup
  unfold GoMap.get
  rw [this]

theorem addEntry_lookup {K : Type} [DecidableEq K] (k : K) (d : Int) (l : List (K × Int))
    (k' : K) :
    (match (addEntry k d l).lookup k' with | some v => v | none => 0) =
      (match l.lookup k' with | some v => v | none => 0) + (if k' = k then d else 0) := by
  induction l with
  | nil =>
    by_cases h : k' = k
    · simp [addEntry, h]
    · have hb : (k' == k) = false := by simpa using h
      simp [addEntry, h, List.lookup, hb]
  | cons p rest ih =>
    obtain ⟨k₀, v⟩ := p
    by_cases h : k₀ = k
    · subst h
      by_cases h' : k' = k₀
      · simp [addEntry, h']
      · have hb : (k' == k₀) = false := by simpa using h'
        simp [addEntry, h', List.lookup, hb]
    · by_cases h' : k' = k₀
      · subst h'
        have : ¬ k' = k := h
        simp [addEntry, h, this]
      · simp only [addEntry, h, if_false, List.lookup_cons]
        have : (k' == k₀) = false := by simpa using h'
        simp only [this]
        exact ih

theorem GoMap.get_add {K : Type} [DecidableEq K] (m : GoMap K) (k : K) (d : Int) (k' : K) :
    (m.add k d).get k' = m.get k' + (if k' = k then d else 0) :=
  addEntry_lookup k d m.entries k'

/-! ## The presenter: lemmas -/

theorem dayLoop_fst (L : TimeLib) (dec : Bool) (dayTotals : GoMap CivilDate)
    (days : List CivilDate) (st : Int × List Line) :
    (days.foldl (dayStep L dec dayTotals) st).1 =
      days.foldl (fun total day => add64 total (dayTotals.get day)) st.1 := by
  induction days generalizing st with
  | nil => rfl
  | cons d rest ih => simp only [List.foldl_cons]; rw [ih]; rfl

theorem percentLines_append (a b : List Line) :
    percentLines (a ++ b) = percentLines a ++ percentLines b := by
  induction a with
  | nil => rfl
  | cons x rest ih => cases x <;> simp [percentLines, ih]

theorem dayLoop_percentLines (L : TimeLib) (dec : Bool) (dayTotals : GoMap CivilDate)
    (days : List CivilDate) (st : Int × List Line) :
    percentLines (days.foldl (dayStep L dec dayTotals) st).2 = percentLines st.2 := by
  induction days generalizing st with
  | nil => rfl
  | cons d rest ih =>
    simp only [List.foldl_cons]
    rw [ih]
    simp [dayStep, percentLines_append, percentLines]

theorem sortKeys_perm {K : Type} (less : K → K → Bool) (l : List K) :
    (sortKeys less l).Perm l :=
  List.perm_insertionSort _ l

theorem grandTotal_eq_wrap (dayTotals : GoMap CivilDate) :
    grandTotal dayTotals = wrap64 dayTotals.sumValues := by
  have h0 : (0 : Int) = wrap64 0 := by decide
  unfold grandTotal KeysOfMap
  rw [h0, foldl_add64, zero_add,
    ((sortKeys_perm CivilDates dayTotals.keys).map dayTotals.get).sum_eq,
    GoMap.sum_get_keys]

/-- The value `main` assigns to `fraction` for a category when the division
does not panic. -/
theorem div64_of_ne_zero (a b : Int) (h : b ≠ 0) : div64 a b = some (wrap64 (Int.tdiv a b)) := by
  simp [div64, h]

theorem categoryLoop_of_ne_zero (ct : GoMap String) (total : Int) (h : total ≠ 0)
    (categories : List Category) (out : List Line) :
    categoryLoop ct total categories out =
      ⟨out ++ categories.map (fun c =>
        Line.percent (wrap64 (Int.tdiv (mul64 (ct.get c.Name) 100) total)) (displayName c.Name)),
       none⟩ := by
  induction categories generalizing out with
  | nil => simp [categoryLoop]
  | cons c rest ih =>
    simp only [categoryLoop, div64_of_ne_zero _ _ h, ih, List.map_cons, List.append_assoc,
      List.singleton_append]

theorem categoryLoop_of_zero (ct : GoMap String) (c : Category)
    (rest : List Category) (out : List Line) :
    categoryLoop ct 0 (c :: rest) out = ⟨out, some Fault.divideByZero⟩ := by
  simp [categoryLoop, div64]

theorem percentLines_map_text (f : Event → String) (l : List Event) :
    percentLines (l.map (fun un => Line.text (f un))) = [] := by
  induction l with
  | nil => rfl
  | cons x rest ih => simpa [percentLines] using ih

theorem percentLines_map_percent (f : Category → Int) (g : Category → String)
    (l : List Category) :
    percentLines (l.map (fun c => Line.percent (f c) (g c))) = l.map (fun c => (f c, g c)) := by
  induction l with
  | nil => rfl
  | cons x rest ih => simp [percentLines, ih]

theorem dayLoop_total (L : TimeLib) (dec : Bool) (dayTotals : GoMap CivilDate)
    (out : List Line) :
    ((KeysOfMap dayTotals CivilDates).foldl (dayStep L dec dayTotals) (0, out)).1 =
      grandTotal dayTotals := by
  rw [dayLoop_fst]; rfl

/-- When the accumulated total is not zero the run of the presenter ends
normally and prints one category line per rule, in rule order. -/
theorem present_of_ne_zero (L : TimeLib) (dec : Bool) (dayTotals : GoMap CivilDate)
    (ct : GoMap String) (unrecognized : List Event) (categories : List Category)
    (h : grandTotal dayTotals ≠ 0) :
    (present L dec dayTotals ct unrecognized categories).fault = none ∧
    percentLines (present L dec dayTotals ct unrecognized categories).out =
      categories.map (fun c =>
        (wrap64 (Int.tdiv (mul64 (ct.get c.Name) 100) (grandTotal dayTotals)),
         displayName c.Name)) := by
  unfold present
  simp only [dayLoop_total]
  rw [categoryLoop_of_ne_zero _ _ h]
  refine ⟨rfl, ?_⟩
  split_ifs <;>
    simp [percentLines_append, percentLines_map_text, percentLines_map_percent,
      dayLoop_percentLines, percentLines]

/-- When the accumulated total is zero and there is at least one rule, the
run of the presenter ends in the divide-by-zero panic before any category line
is printed. -/
theorem present_of_zero (L : TimeLib) (dec : Bool) (dayTotals : GoMap CivilDate)
    (ct : GoMap String) (unrecognized : List Event) (c : Category) (rest : List Category)
    (h : grandTotal dayTotals = 0) :
    (present L dec dayTotals ct unrecognized (c :: rest)).fault = some Fault.divideByZero ∧
    percentLines (present L dec dayTotals ct unrecognized (c :: rest)).out = [] := by
  unfold present
  simp only [dayLoop_total, h]
  rw [categoryLoop_of_zero]
  refine ⟨rfl, ?_⟩
  split_ifs <;> simp [percentLines_append, dayLoop_percentLines, percentLines]

/-! ## Ordering of civil dates: lemmas -/

theorem CivilDates_iff (a b : CivilDate) :
    CivilDates a b = true ↔ (a.Year < b.Year ∨ (a.Year = b.Year ∧
      (a.Month < b.Month ∨ (a.Month = b.Month ∧ a.Day < b.Day)))) := by
  simp [CivilDates]

theorem CivilDates_false_iff (a b : CivilDate) :
    CivilDates a b = false ↔ ¬ (a.Year < b.Year ∨ (a.Year = b.Year ∧
      (a.Month < b.Month ∨ (a.Month = b.Month ∧ a.Day < b.Day)))) := by
  rw [← CivilDates_iff]; simp

theorem CivilDates_total (a b : CivilDate) :
    CivilDates b a = false ∨ CivilDates a b = false := by
  rw [CivilDates_false_iff, CivilDates_false_iff]; omega

theorem CivilDates_trans (a b c : CivilDate) (h₁ : CivilDates b a = false)
    (h₂ : CivilDates c b = false) : CivilDates c a = false := by
  rw [CivilDates_false_iff] at *; omega

theorem CivilDates_of_ne (a b : CivilDate) (h : CivilDates b a = false) (hne : a ≠ b) :
    CivilDates a b = true := by
  rw [CivilDates_false_iff] at h
  rw [CivilDates_iff]
  have : ¬ (a.Year = b.Year ∧ a.Month = b.Month ∧ a.Day = b.Day) := by
    rintro ⟨h1, h2, h3⟩
    apply hne
    cases a; cases b; simp_all
  omega

theorem sortKeys_sorted (l : List CivilDate) :
    List.Sorted (fun a b => CivilDates b a = false) (sortKeys CivilDates l) := by
  haveI : IsTotal CivilDate (fun a b => CivilDates b a = false) := ⟨CivilDates_total⟩
  haveI : IsTrans CivilDate (fun a b => CivilDates b a = false) :=
    ⟨fun a b c h₁ h₂ => CivilDates_trans a b c h₁ h₂⟩
  exact List.sorted_insertionSort _ l

theorem sortKeys_strict (l : List CivilDate) (h : l.Nodup) :
    List.Sorted (fun a b => CivilDates a b = true) (sortKeys CivilDates l) := by
  have hs := sortKeys_sorted l
  have hn : (sortKeys CivilDates l).Nodup := (sortKeys_perm CivilDates l).nodup_iff.mpr h
  exact (List.Pairwise.and hs hn).imp (fun {a b} hab => CivilDates_of_ne a b hab.1 hab.2)

theorem sortKeys_of_sorted (l : List CivilDate)
    (h : List.Sorted (fun a b => CivilDates b a = false) l) : sortKeys CivilDates l = l :=
  List.Sorted.insertionSort_eq h

/-! ## The engine: lemmas -/

theorem computeStep_get (L : TimeLib) (categories : List Category) (acc : Totals)
    (event : Event) (name : String) :
    (computeStep L categories acc event).categoryTotals.get name =
      acc.categoryTotals.get name +
        (if name = getCategory event categories then (contributingDurations L [event]).sum
         else 0) := by
  unfold computeStep contributingDurations
  cases h : contribution L event with
  | none => simp [h]
  | some p =>
    obtain ⟨s, d⟩ := p
    simp [h, GoMap.get_add]

theorem getCategory_first (event : Event) (before : List Category) (rule : Category)
    (after : List Category) (hb : ∀ r ∈ before, r.Matches event = false)
    (hr : rule.Matches event = true) :
    getCategory event (before ++ rule :: after) = rule.Name := by
  induction before with
  | nil => simp [getCategory, hr]
  | cons b rest ih =>
    have hb0 : b.Matches event = false := hb b (List.mem_cons_self _ _)
    simp only [List.cons_append, getCategory, hb0]
    exact ih (fun r hr' => hb r (List.mem_cons_of_mem _ hr'))

theorem getCategory_none (event : Event) (rules : List Category)
    (h : ∀ r ∈ rules, r.Matches event = false) : getCategory event rules = Uncategorized := by
  induction rules with
  | nil => rfl
  | cons b rest ih =>
    have hb0 : b.Matches event = false := h b (List.mem_cons_self _ _)
    simp only [getCategory, hb0]
    exact ih (fun r hr' => h r (List.mem_cons_of_mem _ hr'))

theorem grandTotal_of_entries_nil (m : GoMap CivilDate) (h : m.entries = []) :
    grandTotal m = 0 := by
  rw [grandTotal_eq_wrap]
  unfold GoMap.sumValues
  rw [h]
  decide

theorem formatted_ne_placeholder (a b c : String) : a ++ " " ++ b ++ "  " ++ c ≠ "?" := by
  intro h
  have hl := congrArg String.length h
  simp only [String.length_append] at hl
  have h1 : " ".length = 1 := rfl
  have h2 : "  ".length = 2 := rfl
  have h3 : "?".length = 1 := rfl
  omega

theorem padLeft_length (width : Nat) (s : String) :
    (padLeft width s).length = max width s.length := by
  unfold padLeft
  rw [String.length_append]
  simp only [String.length, List.length_replicate]
  omega

theorem dayKeys_append (a b : List Line) : dayKeys (a ++ b) = dayKeys a ++ dayKeys b := by
  induction a with
  | nil => rfl
  | cons x rest ih => cases x <;> simp [dayKeys, ih]

theorem dayLoop_dayKeys (L : TimeLib) (dec : Bool) (dayTotals : GoMap CivilDate)
    (days : List CivilDate) (st : Int × List Line) :
    dayKeys (days.foldl (dayStep L dec dayTotals) st).2 = dayKeys st.2 ++ days := by
  induction days generalizing st with
  | nil => simp
  | cons d rest ih =>
    simp only [List.foldl_cons]
    rw [ih]
    simp [dayStep, dayKeys_append, dayKeys]

theorem dayKeys_map_text (f : Event → String) (l : List Event) :
    dayKeys (l.map (fun un => Line.text (f un))) = [] := by
  induction l with
  | nil => rfl
  | cons x rest ih => simpa [dayKeys] using ih

theorem dayKeys_map_percent (f : Category → Int) (g : Category → String)
    (l : List Category) :
    dayKeys (l.map (fun c => Line.percent (f c) (g c))) = [] := by
  induction l with
  | nil => rfl
  | cons x rest ih => simpa [dayKeys] using ih

/-- The day lines `main` prints are those of the sorted keys, in that order,
whether or not the run later panics. -/
theorem present_dayKeys (L : TimeLib) (dec : Bool) (dayTotals : GoMap CivilDate)
    (ct : GoMap String) (unrecognized : List Event) (categories : List Category) :
    dayKeys (present L dec dayTotals ct unrecognized categories).out =
      KeysOfMap dayTotals CivilDates := by
  unfold present
  simp only [dayLoop_total]
  by_cases h : grandTotal dayTotals = 0
  · cases categories with
    | nil =>
      simp only [categoryLoop]
      split_ifs <;> simp_all [dayKeys_append, dayKeys_map_text, dayLoop_dayKeys, dayKeys]
    | cons c rest =>
      rw [h, categoryLoop_of_zero]
      split_ifs <;> simp_all [dayKeys_append, dayLoop_dayKeys, dayKeys]
  · rw [categoryLoop_of_ne_zero _ _ h]
    split_ifs <;>
      simp [dayKeys_append, dayKeys_map_text, dayKeys_map_percent, dayLoop_dayKeys, dayKeys]

theorem ComputeTotals_append_one (L : TimeLib) (events : List Event) (event : Event)
    (categories : List Category) :
    ComputeTotals L ⟨events ++ [event]⟩ categories =
      computeStep L categories (ComputeTotals L ⟨events⟩ categories) event := by
  unfold ComputeTotals
  simp [List.foldl_append]

theorem contributingDurations_single (L : TimeLib) (event : Event) (s : L.Time) (d : Int)
    (h : contribution L event = some (s, d)) : (contributingDurations L [event]).sum = d := by
  simp [contributingDurations, h]

theorem scenario3Days_total (day : CivilDate) :
    grandTotal (scenario3Days day) = 10800000000000 := by
  have h : (scenario3Days day).sumValues = 10800000000000 := rfl
  rw [grandTotal_eq_wrap, h]
  decide

theorem scenario3Categories_get (name : String) :
    scenario3Categories.get name =
      if name = "A" then 3600000000000
      else if name = Uncategorized then 7200000000000 else 0 := by
  unfold scenario3Categories GoMap.get
  by_cases hA : name = "A"
  · subst hA; rfl
  · by_cases hU : name = Uncategorized
    · subst hU; rfl
    · have h1 : (name == "A") = false := by simpa using hA
      have h2 : (name == Uncategorized) = false := by simpa using hU
      simp [List.lookup, h1, h2, hA, hU]

/-! ## Percentages: lemmas -/

theorem tdiv_inInt64 (a T : Int) (hT : 0 < T) (ha : inInt64 a) : inInt64 (Int.tdiv a T) := by
  unfold inInt64 MinInt64 MaxInt64 at *
  rcases le_or_lt 0 a with h | h
  · rw [Int.tdiv_eq_ediv h hT.le]
    have h1 : 0 ≤ a / T := Int.ediv_nonneg h hT.le
    have h2 : a / T ≤ a := Int.ediv_le_self T h
    omega
  · have hn : 0 ≤ -a := by omega
    have e : Int.tdiv a T = -((-a) / T) := by
      rw [← Int.tdiv_eq_ediv hn hT.le, Int.neg_tdiv, neg_neg]
    have h1 : 0 ≤ (-a) / T := Int.ediv_nonneg hn hT.le
    have h2 : (-a) / T ≤ -a := Int.ediv_le_self T hn
    omega

theorem percentage_exact (v T : Int) (hT : 0 < T) (hv : inInt64 (v * 100)) :
    wrap64 (Int.tdiv (mul64 v 100) T) = Int.tdiv (v * 100) T := by
  unfold mul64
  rw [wrap64_of_inInt64 hv]
  exact wrap64_of_inInt64 (tdiv_inInt64 _ T hT hv)

theorem quotient_sum_bounds (f : Category → Int) (T : Int) (hT : 0 < T)
    (l : List Category) (hf : ∀ c ∈ l, 0 ≤ f c) :
    T * (l.map (fun c => Int.tdiv (f c * 100) T)).sum ≤ 100 * (l.map f).sum ∧
    100 * (l.map f).sum + l.length ≤
      T * ((l.map (fun c => Int.tdiv (f c * 100) T)).sum + l.length) := by
  induction l with
  | nil => simp
  | cons c rest ih =>
    have ih' := ih (fun x hx => hf x (List.mem_cons_of_mem _ hx))
    have hc : 0 ≤ f c := hf c (List.mem_cons_self _ _)
    have hc100 : 0 ≤ f c * 100 := by omega
    have e : Int.tdiv (f c * 100) T = f c * 100 / T := Int.tdiv_eq_ediv hc100 hT.le
    have h1 : f c * 100 / T * T ≤ f c * 100 := Int.ediv_mul_le _ (by omega)
    have h2 : f c * 100 < (f c * 100 / T + 1) * T := Int.lt_ediv_add_one_mul_self _ hT
    simp only [List.map_cons, List.sum_cons, List.length_cons, e]
    push_cast
    constructor
    · nlinarith [ih'.1]
    · nlinarith [ih'.2]

/-- On the modelled engine an event whose end precedes its start is left out
of both totals and of the unrecognized list (step 2b), although both of its
timestamps parse and `end − start` is −3600000000000 ns. -/
theorem backwards_event_left_out :
    (ComputeTotals sampleLib ⟨[backwardsEvent]⟩ []).dayTotals.entries = [] ∧
    (ComputeTotals sampleLib ⟨[backwardsEvent]⟩ []).categoryTotals.entries = [] ∧
    (ComputeTotals sampleLib ⟨[backwardsEvent]⟩ []).unrecognized = [] ∧
    parsedDuration sampleLib backwardsEvent = some (-3600000000000) := by
  decide

/-- Concrete scenarios 1 to 3 of the specification on the modelled engine:
one matched event; the same event unmatched; two events on one day, the first
matched by "A" and the second unmatched. -/
theorem engine_scenarios :
    (ComputeTotals sampleLib ⟨[reviewEvent]⟩
        [⟨"Meetings", fun e => decide (e.Summary = "Review")⟩]).dayTotals.entries =
      [(⟨2024, 1, 1⟩, 3600000000000)] ∧
    (ComputeTotals sampleLib ⟨[reviewEvent]⟩
        [⟨"Meetings", fun e => decide (e.Summary = "Review")⟩]).categoryTotals.entries =
      [("Meetings", 3600000000000)] ∧
    (ComputeTotals sampleLib ⟨[reviewEvent]⟩
        [⟨"Meetings", fun e => decide (e.Summary = "Review")⟩]).unrecognized = [] ∧
    (ComputeTotals sampleLib ⟨[reviewEvent]⟩
        [⟨"Meetings", fun e => decide (e.Summary = "Retro")⟩]).categoryTotals.entries =
      [(Uncategorized, 3600000000000)] ∧
    (ComputeTotals sampleLib ⟨[reviewEvent]⟩
        [⟨"Meetings", fun e => decide (e.Summary = "Retro")⟩]).unrecognized = [reviewEvent] ∧
    (ComputeTotals sampleLib ⟨[reviewEvent, errandEvent]⟩ scenario3Rules).dayTotals.entries =
      (scenario3Days ⟨2024, 1, 1⟩).entries ∧
    (ComputeTotals sampleLib ⟨[reviewEvent, errandEvent]⟩ scenario3Rules).categoryTotals.entries =
      scenario3Categories.entries ∧
    (ComputeTotals sampleLib ⟨[reviewEvent, errandEvent]⟩ scenario3Rules).unrecognized =
      [errandEvent] ∧
    percentLines (main sampleLib false ⟨[reviewEvent, errandEvent]⟩ scenario3Rules).out =
      [(33, "A"), (66, "(uncategorized)")] := by
  decide

/-! ## The claims -/

/-- C1: with one event that carries no timestamps (so that no event contributes a
duration and the sum of the day totals is 0) and at least one category rule,
`main` reaches the percentage division with a zero divisor and the run ends in
the divide-by-zero panic: the zero-total case is not guarded. The same holds
for the presenter on any day totals whose sum is 0. -/
theorem main_zero_total_divides_by_zero (L : TimeLib) (decimalOutput : Bool)
    (category : Category) (rest : List Category) :
    (ComputeTotals L ⟨[untimedEvent]⟩ (category :: rest)).dayTotals.sumValues = 0 ∧
    grandTotal (ComputeTotals L ⟨[untimedEvent]⟩ (category :: rest)).dayTotals = 0 ∧
    (main L decimalOutput ⟨[untimedEvent]⟩ (category :: rest)).fault
      = some Fault.divideByZero ∧
    (∀ (dayTotals : GoMap CivilDate) (categoryTotals : GoMap String)
        (unrecognized : List Event), dayTotals.sumValues = 0 →
      (present L decimalOutput dayTotals categoryTotals unrecognized (category :: rest)).fault
        = some Fault.divideByZero) := by
  refine ⟨rfl, grandTotal_of_entries_nil _ rfl, ?_, ?_⟩
  · have h : main L decimalOutput ⟨[untimedEvent]⟩ (category :: rest) =
        present L decimalOutput (ComputeTotals L ⟨[untimedEvent]⟩ (category :: rest)).dayTotals
          (ComputeTotals L ⟨[untimedEvent]⟩ (category :: rest)).categoryTotals
          (ComputeTotals L ⟨[untimedEvent]⟩ (category :: rest)).unrecognized
          (category :: rest) := rfl
    rw [h]
    exact (present_of_zero L decimalOutput _ _ _ category rest
      (grandTotal_of_entries_nil _ rfl)).1
  · intro dayTotals categoryTotals unrecognized hsum
    have hz : grandTotal dayTotals = 0 := by
      rw [grandTotal_eq_wrap, hsum]
      decide
    exact (present_of_zero L decimalOutput dayTotals categoryTotals unrecognized category rest
      hz).1

/-- C2, as stated, fails for a category total above MaxInt64/100 ns: with a
single three-year event the grand total is positive (and equals the exact sum
of the day totals), the exact quotient (duration × 100) ÷ total is 100, but the
`int64` product wraps and the line printed shows −94. -/
theorem percentage_wraps_for_long_total :
    0 < grandTotal longDays ∧
    grandTotal longDays = longDays.sumValues ∧
    Int.tdiv (longCategories.get "Sabbatical" * 100) (grandTotal longDays) = 100 ∧
    percentLines (present sampleLib false longDays longCategories []
      [⟨"Sabbatical", fun _ => true⟩]).out = [(-94, "Sabbatical")] := by
  decide

/-- C2 (amended): for every positive grand total and every category rule whose
category duration times 100 fits in `int64`, the percentage `main` prints for
that category equals (category duration × 100) ÷ grand total with truncating
integer division; the grand total is the `int64` sum of all day totals
accumulated over the sorted day keys, which is the exact sum whenever that
fits in `int64`. -/
theorem percentage_is_truncated_quotient (L : TimeLib) (decimalOutput : Bool)
    (dayTotals : GoMap CivilDate) (categoryTotals : GoMap String)
    (unrecognized : List Event) (categories : List Category)
    (hpos : 0 < grandTotal dayTotals) :
    grandTotal dayTotals = wrap64 dayTotals.sumValues ∧
    (inInt64 dayTotals.sumValues → grandTotal dayTotals = dayTotals.sumValues) ∧
    (present L decimalOutput dayTotals categoryTotals unrecognized categories).fault = none ∧
    ∀ (i : Nat) (c : Category), categories[i]? = some c →
      inInt64 (categoryTotals.get c.Name * 100) →
      (percentLines
        (present L decimalOutput dayTotals categoryTotals unrecognized categories).out)[i]? =
        some (Int.tdiv (categoryTotals.get c.Name * 100) (grandTotal dayTotals),
              displayName c.Name) := by
  have hne : grandTotal dayTotals ≠ 0 := by omega
  have h := present_of_ne_zero L decimalOutput dayTotals categoryTotals unrecognized
    categories hne
  refine ⟨grandTotal_eq_wrap dayTotals, ?_, h.1, ?_⟩
  · intro hr
    rw [grandTotal_eq_wrap, wrap64_of_inInt64 hr]
  · intro i c hc hv
    rw [h.2, List.getElem?_map, hc, Option.map_some', percentage_exact _ _ hpos hv]

/-- C2 (amended), at the totals of concrete scenario 3 with the rule "A": the
total is positive, 3600 s × 100 fits in `int64`, and the first category line
shows 33 for "A". -/
theorem percentage_is_truncated_quotient_witness :
    0 < grandTotal (scenario3Days ⟨2024, 1, 1⟩) ∧
    (percentLines (present sampleLib false (scenario3Days ⟨2024, 1, 1⟩) scenario3Categories []
      [⟨"A", fun _ => true⟩]).out)[0]? = some (33, "A") :=
  ⟨by decide,
   (percentage_is_truncated_quotient sampleLib false (scenario3Days ⟨2024, 1, 1⟩)
      scenario3Categories [] [⟨"A", fun _ => true⟩] (by decide)).2.2.2 0
      ⟨"A", fun _ => true⟩ rfl (by decide)⟩

/-- C3: whenever the accumulated total is not zero, `main` prints exactly one
category line per configured rule, the i-th line for the i-th rule, computed
from `categoryTotals` read under that rule's name; but with the untimed event
as the only event (accumulated total zero) and one configured rule the run
panics in the first iteration and no category line is printed at all. -/
theorem category_lines_follow_rule_order (L : TimeLib) (decimalOutput : Bool) :
    (∀ (dayTotals : GoMap CivilDate) (categoryTotals : GoMap String)
        (unrecognized : List Event) (categories : List Category),
      grandTotal dayTotals ≠ 0 →
      (present L decimalOutput dayTotals categoryTotals unrecognized categories).fault = none ∧
      percentLines
          (present L decimalOutput dayTotals categoryTotals unrecognized categories).out =
        categories.map (fun c =>
          (wrap64 (Int.tdiv (mul64 (categoryTotals.get c.Name) 100) (grandTotal dayTotals)),
           displayName c.Name))) ∧
    (∀ category : Category,
      [category].length = 1 ∧
      percentLines (main L decimalOutput ⟨[untimedEvent]⟩ [category]).out = [] ∧
      (main L decimalOutput ⟨[untimedEvent]⟩ [category]).fault = some Fault.divideByZero) := by
  refine ⟨fun dt ct un cats h => present_of_ne_zero L decimalOutput dt ct un cats h, ?_⟩
  intro category
  have h : main L decimalOutput ⟨[untimedEvent]⟩ [category] =
      present L decimalOutput (ComputeTotals L ⟨[untimedEvent]⟩ [category]).dayTotals
        (ComputeTotals L ⟨[untimedEvent]⟩ [category]).categoryTotals
        (ComputeTotals L ⟨[untimedEvent]⟩ [category]).unrecognized
        [category] := rfl
  have hz := present_of_zero L decimalOutput
    (ComputeTotals L ⟨[untimedEvent]⟩ [category]).dayTotals
    (ComputeTotals L ⟨[untimedEvent]⟩ [category]).categoryTotals
    (ComputeTotals L ⟨[untimedEvent]⟩ [category]).unrecognized category []
    (grandTotal_of_entries_nil _ rfl)
  rw [h]
  exact ⟨rfl, hz.2, hz.1⟩

/-- C4: `formatUnrecognizedEvent` returns the placeholder "?" exactly when the
event's start or end is absent or its start or end `DateTime` fails to parse;
otherwise it returns the raw start `DateTime`, one blank, the rendering of the
duration `end − start` right-aligned to width 10 (preceded by as many blanks as
it is shorter than 10 characters, by none when it is longer, never cut), two
blanks, and the summary; an event whose end is missing always yields the
placeholder, never a computed duration. -/
theorem formatUnrecognizedEvent_placeholder_iff (L : TimeLib) (event : Event) :
    (formatUnrecognizedEvent L event = "?" ↔
      (event.Start = none ∨ event.End = none ∨
        (∃ st, event.Start = some st ∧ L.parseRFC3339 st.DateTime = none) ∨
        (∃ en, event.End = some en ∧ L.parseRFC3339 en.DateTime = none))) ∧
    (∀ st en s e, event.Start = some st → event.End = some en →
      L.parseRFC3339 st.DateTime = some s → L.parseRFC3339 en.DateTime = some e →
      formatUnrecognizedEvent L event =
        st.DateTime ++ " " ++
          (String.mk (List.replicate (10 - (L.durationString (L.sub e s)).length) ' ')
            ++ L.durationString (L.sub e s))
          ++ "  " ++ event.Summary ∧
      (String.mk (List.replicate (10 - (L.durationString (L.sub e s)).length) ' ')
          ++ L.durationString (L.sub e s)).length =
        max 10 (L.durationString (L.sub e s)).length ∧
      (L.durationString (L.sub e s) = "1h0m0s" →
        formatUnrecognizedEvent L event =
          st.DateTime ++ "     1h0m0s  " ++ event.Summary)) ∧
    (event.End = none → formatUnrecognizedEvent L event = "?") := by
  refine ⟨?_, ?_, ?_⟩
  · unfold formatUnrecognizedEvent
    cases hs : event.Start with
    | none => simp
    | some st =>
      cases he : event.End with
      | none => simp
      | some en =>
        cases hps : L.parseRFC3339 st.DateTime with
        | none => simp [hps]
        | some s =>
          cases hpe : L.parseRFC3339 en.DateTime with
          | none => simp [hps, hpe]
          | some e => simpa [hps, hpe] using formatted_ne_placeholder _ _ _
  · intro st en s e hs he hps hpe
    have hout : formatUnrecognizedEvent L event =
        st.DateTime ++ " " ++
          (String.mk (List.replicate (10 - (L.durationString (L.sub e s)).length) ' ')
            ++ L.durationString (L.sub e s))
          ++ "  " ++ event.Summary := by
      unfold formatUnrecognizedEvent
      simp only [hs, he, hps, hpe]
      rfl
    refine ⟨hout, padLeft_length 10 _, ?_⟩
    intro hd
    rw [hout, hd]
    have h1 : st.DateTime ++ " " ++
        (String.mk (List.replicate (10 - "1h0m0s".length) ' ') ++ "1h0m0s") ++ "  " =
        st.DateTime ++ "     1h0m0s  " := by
      have h2 : String.mk (List.replicate (10 - "1h0m0s".length) ' ') ++ "1h0m0s"
          = "    1h0m0s" := by decide
      rw [h2, String.append_assoc, String.append_assoc]
      have h3 : " " ++ ("    1h0m0s" ++ "  ") = "     1h0m0s  " := by decide
      rw [h3]
    rw [h1]
  · intro he
    unfold formatUnrecognizedEvent
    cases hs : event.Start <;> simp [he]

/-- C5: for every day-totals map, the key sequence `main` iterates
(`KeysOfMap` with the `CivilDates` ordering, which is also the sequence of the
day lines printed) contains each key of the map exactly once and nothing else,
and is strictly ascending chronologically; sorting a sequence of dates that is
already in ascending order returns it unchanged, so sorting is idempotent. -/
theorem keys_sorted_each_once (dayTotals : GoMap CivilDate) :
    (∀ L decimalOutput categoryTotals unrecognized categories,
      dayKeys (present L decimalOutput dayTotals categoryTotals unrecognized categories).out =
        KeysOfMap dayTotals CivilDates) ∧
    (∀ day, (KeysOfMap dayTotals CivilDates).count day =
      if day ∈ dayTotals.keys then 1 else 0) ∧
    List.Sorted (fun a b => CivilDates a b = true) (KeysOfMap dayTotals CivilDates) ∧
    (∀ dates : List CivilDate, List.Sorted (fun a b => CivilDates b a = false) dates →
      sortKeys CivilDates dates = dates) ∧
    (∀ dates : List CivilDate,
      sortKeys CivilDates (sortKeys CivilDates dates) = sortKeys CivilDates dates) := by
  refine ⟨fun L dec ct un cats => present_dayKeys L dec dayTotals ct un cats, ?_, ?_, ?_, ?_⟩
  · intro day
    have hp : (KeysOfMap dayTotals CivilDates).Perm dayTotals.keys :=
      sortKeys_perm CivilDates dayTotals.keys
    rw [hp.count_eq]
    exact List.count_eq_of_nodup dayTotals.nodup
  · exact sortKeys_strict dayTotals.keys dayTotals.nodup
  · exact fun dates h => sortKeys_of_sorted dates h
  · exact fun dates => sortKeys_of_sorted _ (sortKeys_sorted dates)

/-- C7: category matching returns the name of the first rule, in declaration
order, whose predicate matches the event, or "Uncategorized" when no rule
matches; processing one more event changes the category total of the matched
name only, adding the event's duration there when the event contributes; in
particular, when rule 1 and rule 2 both match and carry different names, the
duration is added to rule 1's total and rule 2's total is unchanged. -/
theorem first_match_wins (L : TimeLib) (event : Event) (rules : List Category) :
    (∀ before rule after, rules = before ++ rule :: after →
      (∀ r ∈ before, r.Matches event = false) → rule.Matches event = true →
      getCategory event rules = rule.Name) ∧
    ((∀ r ∈ rules, r.Matches event = false) → getCategory event rules = Uncategorized) ∧
    (∀ (events : List Event) (name : String), name ≠ getCategory event rules →
      (ComputeTotals L ⟨events ++ [event]⟩ rules).categoryTotals.get name =
        (ComputeTotals L ⟨events⟩ rules).categoryTotals.get name) ∧
    (∀ (events : List Event) (s : L.Time) (d : Int), contribution L event = some (s, d) →
      (ComputeTotals L ⟨events ++ [event]⟩ rules).categoryTotals.get
          (getCategory event rules) =
        (ComputeTotals L ⟨events⟩ rules).categoryTotals.get (getCategory event rules) + d) ∧
    (∀ rule1 rule2 rest, rules = rule1 :: rule2 :: rest →
      rule1.Matches event = true → rule2.Matches event = true →
      rule2.Name ≠ rule1.Name →
      ∀ (events : List Event) (s : L.Time) (d : Int), contribution L event = some (s, d) →
        (ComputeTotals L ⟨events ++ [event]⟩ rules).categoryTotals.get rule1.Name =
          (ComputeTotals L ⟨events⟩ rules).categoryTotals.get rule1.Name + d ∧
        (ComputeTotals L ⟨events ++ [event]⟩ rules).categoryTotals.get rule2.Name =
          (ComputeTotals L ⟨events⟩ rules).categoryTotals.get rule2.Name) := by
  have hother : ∀ (events : List Event) (name : String), name ≠ getCategory event rules →
      (ComputeTotals L ⟨events ++ [event]⟩ rules).categoryTotals.get name =
        (ComputeTotals L ⟨events⟩ rules).categoryTotals.get name := by
    intro events name hne
    rw [ComputeTotals_append_one, computeStep_get, if_neg hne, add_zero]
  have hsame : ∀ (events : List Event) (s : L.Time) (d : Int),
      contribution L event = some (s, d) →
      (ComputeTotals L ⟨events ++ [event]⟩ rules).categoryTotals.get
          (getCategory event rules) =
        (ComputeTotals L ⟨events⟩ rules).categoryTotals.get (getCategory event rules) + d := by
    intro events s d hc
    rw [ComputeTotals_append_one, computeStep_get, if_pos rfl,
      contributingDurations_single L event s d hc]
  refine ⟨?_, getCategory_none event rules, hother, hsame, ?_⟩
  · rintro before rule after rfl hb hr
    exact getCategory_first event before rule after hb hr
  · rintro rule1 rule2 rest rfl h1 _ hne events s d hc
    have hcat : getCategory event (rule1 :: rule2 :: rest) = rule1.Name := by
      simp [getCategory, h1]
    constructor
    · have := hsame events s d hc
      rw [hcat] at this
      exact this
    · apply hother
      rw [hcat]
      exact hne

/-- C8: for an empty event list and any category rules, `main` prints only
"No events found." and ends normally, with no category line (no percentage
division takes place); the engine returns empty day totals, empty category
totals and no unrecognized events. -/
theorem zero_event_case (L : TimeLib) (decimalOutput : Bool) (categories : List Category) :
    main L decimalOutput ⟨[]⟩ categories = ⟨[Line.text "No events found."], none⟩ ∧
    percentLines (main L decimalOutput ⟨[]⟩ categories).out = [] ∧
    (ComputeTotals L ⟨[]⟩ categories).dayTotals.entries = [] ∧
    (ComputeTotals L ⟨[]⟩ categories).categoryTotals.entries = [] ∧
    (ComputeTotals L ⟨[]⟩ categories).unrecognized = [] :=
  ⟨rfl, rfl, rfl, rfl, rfl⟩

/-- C9: on the totals of concrete scenario 3 (day totals of 3h = 10800 s on one
day, category totals "A": 1h and "Uncategorized": 2h) the accumulated grand
total is 10800000000000 ns, the run ends normally, and the percentage printed
is 33 for every rule named "A" and 66 for every rule named "Uncategorized"; with
the rules "A" and "Uncategorized" configured, the category lines are 33% A and
66% (uncategorized). -/
theorem scenario3_percentages (L : TimeLib) (decimalOutput : Bool) (day : CivilDate)
    (unrecognized : List Event) :
    grandTotal (scenario3Days day) = 10800 * 1000000000 ∧
    (∀ categories : List Category,
      (present L decimalOutput (scenario3Days day) scenario3Categories unrecognized
        categories).fault = none ∧
      percentLines (present L decimalOutput (scenario3Days day) scenario3Categories
        unrecognized categories).out =
        categories.map (fun c =>
          (if c.Name = "A" then 33 else if c.Name = Uncategorized then 66 else 0,
           displayName c.Name))) ∧
    (∀ matchesA matchesU : Event → Bool,
      percentLines (present L decimalOutput (scenario3Days day) scenario3Categories
        unrecognized [⟨"A", matchesA⟩, ⟨Uncategorized, matchesU⟩]).out =
        [(33, "A"), (66, "(uncategorized)")]) := by
  have ht := scenario3Days_total day
  have hne : grandTotal (scenario3Days day) ≠ 0 := by rw [ht]; decide
  have hall : ∀ categories : List Category,
      (present L decimalOutput (scenario3Days day) scenario3Categories unrecognized
        categories).fault = none ∧
      percentLines (present L decimalOutput (scenario3Days day) scenario3Categories
        unrecognized categories).out =
        categories.map (fun c =>
          (if c.Name = "A" then 33 else if c.Name = Uncategorized then 66 else 0,
           displayName c.Name)) := by
    intro categories
    have h := present_of_ne_zero L decimalOutput (scenario3Days day) scenario3Categories
      unrecognized categories hne
    refine ⟨h.1, ?_⟩
    rw [h.2]
    apply List.map_congr_left
    intro c _
    rw [ht, scenario3Categories_get]
    by_cases hA : c.Name = "A"
    · simp only [hA, if_true]; decide
    · by_cases hU : c.Name = Uncategorized
      · simp only [hA, hU, if_true, if_false]; decide
      · have h0 : wrap64 ((mul64 0 100).tdiv 10800000000000) = 0 := by decide
        simp only [hA, hU, if_false, h0]
  refine ⟨by rw [ht]; decide, hall, ?_⟩
  intro matchesA matchesU
  rw [(hall _).2]
  rfl

/-- C10: for every positive grand total and every non-empty list of configured
categories with distinct names whose totals are non-negative, at most
MaxInt64/100 ns each, and sum to the grand total, the run ends normally, one
percentage is printed per category, every percentage lies between 0 and 100,
and the printed percentages sum to a value S with 100 − n < S ≤ 100, where n is
the number of categories. -/
theorem percentages_bounded (L : TimeLib) (decimalOutput : Bool)
    (dayTotals : GoMap CivilDate) (categoryTotals : GoMap String)
    (unrecognized : List Event) (categories : List Category)
    (hpos : 0 < grandTotal dayTotals)
    (hne : categories ≠ [])
    (_hnames : (categories.map (fun c => c.Name)).Nodup)
    (hrange : ∀ c ∈ categories,
      0 ≤ categoryTotals.get c.Name ∧ categoryTotals.get c.Name ≤ MaxInt64 / 100)
    (hsum : (categories.map (fun c => categoryTotals.get c.Name)).sum = grandTotal dayTotals) :
    (present L decimalOutput dayTotals categoryTotals unrecognized categories).fault = none ∧
    (percentLines
      (present L decimalOutput dayTotals categoryTotals unrecognized categories).out).length
      = categories.length ∧
    (∀ p ∈ percentLines
        (present L decimalOutput dayTotals categoryTotals unrecognized categories).out,
      0 ≤ p.1 ∧ p.1 ≤ 100) ∧
    100 - (categories.length : Int) <
      ((percentLines
        (present L decimalOutput dayTotals categoryTotals unrecognized categories).out).map
          Prod.fst).sum ∧
    ((percentLines
        (present L decimalOutput dayTotals categoryTotals unrecognized categories).out).map
          Prod.fst).sum ≤ 100 := by
  have hne0 : grandTotal dayTotals ≠ 0 := by omega
  have h := present_of_ne_zero L decimalOutput dayTotals categoryTotals unrecognized
    categories hne0
  have hexact : ∀ c ∈ categories,
      wrap64 (Int.tdiv (mul64 (categoryTotals.get c.Name) 100) (grandTotal dayTotals)) =
        Int.tdiv (categoryTotals.get c.Name * 100) (grandTotal dayTotals) := by
    intro c hc
    apply percentage_exact _ _ hpos
    have hr := hrange c hc
    unfold inInt64 MinInt64
    unfold MaxInt64 at hr ⊢
    omega
  have hlines : percentLines
      (present L decimalOutput dayTotals categoryTotals unrecognized categories).out =
      categories.map (fun c =>
        (Int.tdiv (categoryTotals.get c.Name * 100) (grandTotal dayTotals),
         displayName c.Name)) := by
    rw [h.2]
    exact List.map_congr_left (fun c hc => by rw [hexact c hc])
  have hnonneg : ∀ c ∈ categories, 0 ≤ categoryTotals.get c.Name :=
    fun c hc => (hrange c hc).1
  have hb := quotient_sum_bounds (fun c => categoryTotals.get c.Name) (grandTotal dayTotals)
    hpos categories hnonneg
  rw [hsum] at hb
  have hfst : ((categories.map (fun c =>
        (Int.tdiv (categoryTotals.get c.Name * 100) (grandTotal dayTotals),
         displayName c.Name))).map Prod.fst) =
      categories.map (fun c =>
        Int.tdiv (categoryTotals.get c.Name * 100) (grandTotal dayTotals)) := by
    simp [List.map_map, Function.comp_def]
  have hlen : 1 ≤ (categories.length : Int) := by
    cases categories with
    | nil => exact absurd rfl hne
    | cons c rest => simp only [List.length_cons]; push_cast; omega
  rw [hlines, hfst]
  refine ⟨h.1, by simp, ?_, ?_, ?_⟩
  · intro p hp
    obtain ⟨c, hc, rfl⟩ := List.mem_map.mp hp
    have hv := hnonneg c hc
    have hle : categoryTotals.get c.Name ≤ grandTotal dayTotals := by
      rw [← hsum]
      apply List.single_le_sum
      · intro x hx
        obtain ⟨c', hc', rfl⟩ := List.mem_map.mp hx
        exact hnonneg c' hc'
      · exact List.mem_map.mpr ⟨c, hc, rfl⟩
    have h100 : 0 ≤ categoryTotals.get c.Name * 100 := by omega
    constructor
    · exact Int.tdiv_nonneg h100 hpos.le
    · show Int.tdiv (categoryTotals.get c.Name * 100) (grandTotal dayTotals) ≤ 100
      rw [Int.tdiv_eq_ediv h100 hpos.le]
      exact Int.ediv_le_of_le_mul hpos (by omega)
  · by_contra hcon
    have hcon' : (categories.map (fun c =>
        Int.tdiv (categoryTotals.get c.Name * 100) (grandTotal dayTotals))).sum +
        (categories.length : Int) ≤ 100 := by omega
    have := mul_le_mul_of_nonneg_left hcon' hpos.le
    linarith [hb.2]
  · by_contra hcon
    have hcon' : 101 ≤ (categories.map (fun c =>
        Int.tdiv (categoryTotals.get c.Name * 100) (grandTotal dayTotals))).sum := by omega
    have := mul_le_mul_of_nonneg_left hcon' hpos.le
    linarith [hb.1]

/-- C10, at the totals of concrete scenario 3 with the two rules "A" and
"Uncategorized": the hypotheses hold and the two percentages 33 and 66 sum to
99, which lies in (100 − 2, 100]. -/
theorem percentages_bounded_witness :
    0 < grandTotal (scenario3Days ⟨2024, 1, 1⟩) ∧
    (scenario3Rules.map (fun c => scenario3Categories.get c.Name)).sum =
      grandTotal (scenario3Days ⟨2024, 1, 1⟩) ∧
    100 - (scenario3Rules.length : Int) <
      ((percentLines (present sampleLib false (scenario3Days ⟨2024, 1, 1⟩)
        scenario3Categories [] scenario3Rules).out).map Prod.fst).sum ∧
    ((percentLines (present sampleLib false (scenario3Days ⟨2024, 1, 1⟩)
        scenario3Categories [] scenario3Rules).out).map Prod.fst).sum ≤ 100 :=
  ⟨by decide, by decide,
   (percentages_bounded sampleLib false (scenario3Days ⟨2024, 1, 1⟩) scenario3Categories []
      scenario3Rules (by decide) (by simp [scenario3Rules]) (by decide)
      (by
        intro c hc
        simp only [scenario3Rules, List.mem_cons, List.mem_singleton, List.not_mem_nil,
          or_false] at hc
        rcases hc with rfl | rfl <;> decide)
      (by decide)).2.2.2⟩

end CalendarStats
